import Mathlib

/-!
Verification development for the Interior-Designer-Web-Scrubber repository.

The Python source is shallowly embedded: each definition below mirrors one
function of the repository (module and function named in its doc comment).
Strings are Lean `String`s; Python `None`-able strings are `Option String`;
Python truthiness of strings (where `""` is falsy) is modelled explicitly.
External collaborators (the HTTP fetcher and the BeautifulSoup DOM engine)
are modelled as oracles passed in as function arguments.
-/

/-- Python `str.lower()` (models `.lower()` calls in `models/designer.py` and
`scrapers/directory_scraper.py`): character-wise lowercasing. -/
def pyLower (s : String) : String :=
  String.mk (s.data.map Char.toLower)

/-- Trim whitespace from both ends of a character list (Python `str.strip()`). -/
def trimList (cs : List Char) : List Char :=
  (((cs.dropWhile Char.isWhitespace).reverse).dropWhile Char.isWhitespace).reverse

/-- Python `str.strip()` on strings. -/
def pyStrip (s : String) : String :=
  String.mk (trimList s.data)

/-- Python `x or d` for an optional string `x` and default `d`: `None` and the
empty string are falsy (used by `Designer.__hash__` / `Designer.__eq__`). -/
def pyOr (o : Option String) (d : String) : String :=
  match o with
  | none => d
  | some s => if s = "" then d else s

/-- Python `row.get(k) or None` (in `CSVExporter._load_existing`): an empty
string becomes `None`. -/
def noneIfEmpty (o : Option String) : Option String :=
  match o with
  | none => none
  | some s => if s = "" then none else some s

/-- Character class `[a-zA-Z0-9._%+-]` of the email regex in
`Designer._normalize_email`. -/
def emailLocalChar (c : Char) : Bool :=
  c.isAlpha || c.isDigit || c == '.' || c == '_' || c == '%' || c == '+' || c == '-'

/-- Character class `[a-zA-Z0-9.-]` of the email regex in
`Designer._normalize_email`. -/
def emailDomainChar (c : Char) : Bool :=
  c.isAlpha || c.isDigit || c == '.' || c == '-'

/-- Scan for the domain part of the email regex: some split of the remaining
characters into a nonempty `[a-zA-Z0-9.-]+` block, a literal dot and a final
`[a-zA-Z]` block of length at least two must exist (regex backtracking is the
disjunction of the two branches). `m` counts domain characters consumed. -/
def emailDomainScan (m : Nat) : List Char → Bool
  | [] => false
  | c :: rest =>
    (c == '.' && decide (1 ≤ m) && decide (2 ≤ rest.length) && rest.all Char.isAlpha) ||
    (emailDomainChar c && emailDomainScan (m + 1) rest)

/-- Full match of the regex `^[a-zA-Z0-9._%+-]+@[a-zA-Z0-9.-]+\.[a-zA-Z]{2,}$`
used by `Designer._normalize_email`. -/
def emailRegexOk (cs : List Char) : Bool :=
  let l := cs.takeWhile emailLocalChar
  if l.isEmpty then false
  else
    match cs.drop l.length with
    | '@' :: rest => emailDomainScan 0 rest
    | _ => false

/-- Embeds `Designer._normalize_email` (src/models/designer.py): strip and
lowercase, then validate against the basic email regex; failures give `None`. -/
def normalizeEmail (email : String) : Option String :=
  if email = "" then none
  else
    let e := pyLower (pyStrip email)
    if emailRegexOk e.data then some e else none

/-- Embeds `Designer._normalize_phone` (src/models/designer.py): keep only the
digits; exactly 10 of them are formatted `(XXX) XXX-XXXX`; exactly 11 starting
with `1` are formatted `+1 (XXX) XXX-XXXX`; otherwise the input is returned
stripped. An empty input is falsy in Python and yields `None`. -/
def normalizePhone (phone : String) : Option String :=
  if phone = "" then none
  else
    let digits := phone.data.filter Char.isDigit
    if digits.length = 10 then
      some (String.mk ('(' :: digits.take 3 ++ ')' :: ' ' :: (digits.drop 3).take 3 ++ '-' :: digits.drop 6))
    else if digits.length = 11 ∧ digits.head? = some '1' then
      some (String.mk ('+' :: '1' :: ' ' :: '(' :: (digits.drop 1).take 3 ++ ')' :: ' ' :: (digits.drop 4).take 3 ++ '-' :: digits.drop 7))
    else
      some (pyStrip phone)

/-- Embeds the `Designer` dataclass (src/models/designer.py), field for field. -/
structure Designer where
  name : String
  source_url : String
  email : Option String
  phone : Option String
  website : Option String
  address : Option String
  city : Option String
  state : Option String
  zip_code : Option String
  social_media : List (String × String)
  specialty : Option String
deriving DecidableEq, Repr

/-- Embeds `Designer.__init__` plus `__post_init__`: truthy `email` and `phone`
are normalized; `social_media` defaults to the empty mapping (the constructor
call sites modelled here never pass it). -/
def mkDesigner (name source_url : String)
    (email phone website address city state zip_code specialty : Option String) : Designer :=
  ⟨name, source_url,
   (match email with
    | none => none
    | some e => if e = "" then some e else normalizeEmail e),
   (match phone with
    | none => none
    | some p => if p = "" then some p else normalizePhone p),
   website, address, city, state, zip_code, [], specialty⟩

/-- The secondary identifier used by `Designer.__eq__`:
`(self.website or self.email or '')`. -/
def secondaryEq (d : Designer) : String :=
  pyOr d.website (pyOr d.email "")

/-- The secondary identifier used by `Designer.__hash__`:
`self.website or self.email or self.name`. -/
def secondaryHash (d : Designer) : String :=
  pyOr d.website (pyOr d.email d.name)

/-- Embeds `Designer.__eq__` (src/models/designer.py lines 79-85): lowercased
names match and lowercased `website or email or ''` identifiers match. -/
def designerEq (a b : Designer) : Bool :=
  pyLower a.name == pyLower b.name && pyLower (secondaryEq a) == pyLower (secondaryEq b)

/-- Embeds `Designer.__hash__` (src/models/designer.py lines 74-77): the hash
is a function of this pair, so equal pairs have equal Python hashes. -/
def hashKey (d : Designer) : String × String :=
  (pyLower d.name, pyLower (secondaryHash d))

/-- The key whose equality is exactly `Designer.__eq__` (helper for proofs). -/
def dedupKey (d : Designer) : String × String :=
  (pyLower d.name, pyLower (secondaryEq d))

/-- Embeds the loop body of `CSVExporter._deduplicate` (src/utils/exporter.py
lines 70-84): `seen` accumulates emitted designers; membership is Python set
membership, i.e. `Designer.__eq__` against some element (hashing is
consistent with this equality, as proved below, so the bucket lookup never
hides an equal element). -/
def dedupeGo (seen : List Designer) : List Designer → List Designer
  | [] => []
  | d :: rest =>
    if seen.any (fun s => designerEq s d) then dedupeGo seen rest
    else d :: dedupeGo (d :: seen) rest

/-- Embeds `CSVExporter._deduplicate`: fold the input through an
initially-empty `seen` set, keeping elements not seen before. -/
def deduplicate (designers : List Designer) : List Designer :=
  dedupeGo [] designers

/-- Spec-side definition (from the spec's words, for comparison with
`deduplicate`): the subsequence keeping exactly the first occurrence of each
identity key. -/
def specKeepFirst : List Designer → List Designer
  | [] => []
  | d :: rest => d :: (specKeepFirst rest).filter (fun x => decide (dedupKey x ≠ dedupKey d))

theorem designerEq_iff_key (a b : Designer) : designerEq a b = true ↔ dedupKey a = dedupKey b := by
  simp [designerEq, dedupKey, Prod.ext_iff]

theorem pyLower_eq_empty_iff (s : String) : pyLower s = "" ↔ s = "" := by
  cases s with
  | mk data =>
    cases data <;> simp [pyLower, String.ext_iff]

theorem secondaryHash_eq_ite (d : Designer) :
    secondaryHash d = if secondaryEq d = "" then d.name else secondaryEq d := by
  unfold secondaryHash secondaryEq pyOr
  cases d.website with
  | none =>
    cases d.email with
    | none => simp
    | some e => by_cases he : e = "" <;> simp [he]
  | some w =>
    by_cases hw : w = "" <;> simp [hw]
    cases d.email with
    | none => simp
    | some e => by_cases he : e = "" <;> simp [he]

/-- C10: the deduplication set-membership test is well-defined: whenever two
`Designer` records are equal under `Designer.__eq__` (which falls back to the
empty string when website and email are absent), their `Designer.__hash__`
keys (which fall back to the name) coincide, so Python hashing never separates
records that compare equal. -/
theorem designerEq_hashKey (a b : Designer) (h : designerEq a b = true) :
    hashKey a = hashKey b := by
  simp only [designerEq, Bool.and_eq_true, beq_iff_eq] at h
  obtain ⟨h1, h2⟩ := h
  have hlow : pyLower "" = "" := rfl
  unfold hashKey
  rw [secondaryHash_eq_ite, secondaryHash_eq_ite]
  by_cases ha : secondaryEq a = ""
  · have hb : secondaryEq b = "" := by
      rw [← pyLower_eq_empty_iff, ← h2, ha, hlow]
    simp [ha, hb, h1]
  · have hb : ¬ secondaryEq b = "" := by
      intro hb
      apply ha
      rw [← pyLower_eq_empty_iff, h2, hb, hlow]
    simp [ha, hb, h2, h1]

/-- Witness for `designerEq_hashKey` at two concrete records that compare
equal only up to case. -/
theorem designerEq_hashKey_witness :
    designerEq
        (mkDesigner "Jane" "u1" none none (some "W.com") none none none none none)
        (mkDesigner "JANE" "u2" none none (some "w.COM") none none none none none) = true ∧
      hashKey (mkDesigner "Jane" "u1" none none (some "W.com") none none none none none) =
        hashKey (mkDesigner "JANE" "u2" none none (some "w.COM") none none none none none) :=
  ⟨by decide, designerEq_hashKey _ _ (by decide)⟩

theorem dedupeGo_eq_filter (R : List Designer) : ∀ seen : List Designer,
    dedupeGo seen R =
      (specKeepFirst R).filter (fun x => decide (dedupKey x ∉ seen.map dedupKey)) := by
  induction R with
  | nil => intro seen; rfl
  | cons d rest ih =>
    intro seen
    by_cases hd : dedupKey d ∈ seen.map dedupKey
    · have hany : (seen.any fun s => designerEq s d) = true := by
        rw [List.any_eq_true]
        obtain ⟨s, hs, hk⟩ := List.mem_map.mp hd
        exact ⟨s, hs, (designerEq_iff_key s d).mpr hk⟩
      rw [specKeepFirst, dedupeGo, hany]
      simp only [if_true, List.filter_cons]
      have hdp : (decide (dedupKey d ∉ seen.map dedupKey)) = false := by simp [hd]
      rw [hdp]
      simp only [Bool.false_eq_true, if_false, List.filter_filter, ih seen]
      refine List.filter_congr ?_
      intro x _
      by_cases hx : dedupKey x ∈ seen.map dedupKey
      · simp [hx]
      · have : dedupKey x ≠ dedupKey d := fun hxy => hx (hxy ▸ hd)
        simp [hx, this]
    · have hany : (seen.any fun s => designerEq s d) = false := by
        rw [List.any_eq_false]
        intro s hs hk
        exact hd (List.mem_map.mpr ⟨s, hs, (designerEq_iff_key s d).mp hk⟩)
      rw [specKeepFirst, dedupeGo, hany]
      simp only [Bool.false_eq_true, if_false, List.filter_cons]
      have hdp : (decide (dedupKey d ∉ seen.map dedupKey)) = true := by simp [hd]
      rw [hdp]
      simp only [if_true, List.filter_filter, ih (d :: seen)]
      refine congrArg (List.cons d) ?_
      refine List.filter_congr ?_
      intro x _
      simp only [List.map_cons, List.mem_cons]
      by_cases hx : dedupKey x ∈ seen.map dedupKey
      · simp [hx]
      · by_cases hxd : dedupKey x = dedupKey d <;> simp [hx, hxd]

theorem deduplicate_eq_specKeepFirst (R : List Designer) : deduplicate R = specKeepFirst R := by
  rw [deduplicate, dedupeGo_eq_filter]
  simp

theorem specKeepFirst_filter_key (p : String × String → Bool) :
    ∀ R : List Designer,
      specKeepFirst (R.filter fun x => p (dedupKey x)) =
        (specKeepFirst R).filter (fun x => p (dedupKey x)) := by
  intro R
  induction R with
  | nil => rfl
  | cons d rest ih =>
    by_cases hd : p (dedupKey d) = true
    · simp only [List.filter_cons, hd, if_true, specKeepFirst, ih, List.filter_filter]
      refine congrArg (List.cons d) (List.filter_congr ?_)
      intro x _
      by_cases hxd : dedupKey x = dedupKey d <;> simp [hxd, Bool.and_comm]
    · simp only [List.filter_cons, hd, Bool.false_eq_true, if_false, specKeepFirst, ih,
        List.filter_filter]
      refine List.filter_congr ?_
      intro x _
      by_cases hx : p (dedupKey x) = true
      · have hxd : dedupKey x ≠ dedupKey d := by
          intro hxy
          rw [hxy] at hx
          exact hd hx
        simp [hx, hxd]
      · simp [Bool.eq_false_iff.mpr hx]

theorem specKeepFirst_idem : ∀ R : List Designer, specKeepFirst (specKeepFirst R) = specKeepFirst R := by
  intro R
  induction R with
  | nil => rfl
  | cons d rest ih =>
    rw [specKeepFirst, specKeepFirst]
    rw [specKeepFirst_filter_key (fun k => decide (k ≠ dedupKey d)), ih, List.filter_filter]
    refine congrArg (List.cons d) (List.filter_congr ?_)
    intro x _
    by_cases hxd : dedupKey x = dedupKey d <;> simp [hxd]

theorem specKeepFirst_sublist : ∀ R : List Designer, (specKeepFirst R).Sublist R := by
  intro R
  induction R with
  | nil => exact List.Sublist.refl []
  | cons d rest ih =>
    rw [specKeepFirst]
    exact List.Sublist.cons₂ d ((List.filter_sublist _).trans ih)

/-- C6: `CSVExporter._deduplicate` is idempotent, equals the first-occurrence
selection by identity key (`specKeepFirst`, written from the spec), and is an
order-preserving subsequence of its input. -/
theorem deduplicate_idem_keepFirst (R : List Designer) :
    deduplicate (deduplicate R) = deduplicate R ∧
      deduplicate R = specKeepFirst R ∧
      (deduplicate R).Sublist R := by
  refine ⟨?_, deduplicate_eq_specKeepFirst R, ?_⟩
  · rw [deduplicate_eq_specKeepFirst, deduplicate_eq_specKeepFirst, specKeepFirst_idem]
  · rw [deduplicate_eq_specKeepFirst]
    exact specKeepFirst_sublist R

/-- Spec-side notion of record identity (from the claim's words): lowercased
names match and the lowercased secondary identifier, website else email else
NAME, matches. -/
def specSameEntity (a b : Designer) : Prop :=
  pyLower a.name = pyLower b.name ∧
    pyLower (pyOr a.website (pyOr a.email a.name)) = pyLower (pyOr b.website (pyOr b.email b.name))

/-- Record with a name only, used to separate the two identity notions. -/
def cexNameOnly : Designer :=
  mkDesigner "A" "u1" none none none none none none none none

/-- Record whose website equals the other record's lowercased name. -/
def cexSiteIsName : Designer :=
  mkDesigner "A" "u2" none none (some "a") none none none none none

/-- C4 counterexample: with the claim's name fallback these two records are
the same entity, but `Designer.__eq__` (empty-string fallback) separates them,
and so does `CSVExporter._deduplicate`; the claimed equivalence fails here. -/
theorem specSameEntity_not_designerEq :
    specSameEntity cexNameOnly cexSiteIsName ∧
      designerEq cexNameOnly cexSiteIsName = false ∧
      deduplicate [cexNameOnly, cexSiteIsName] = [cexNameOnly, cexSiteIsName] := by
  refine ⟨⟨by decide, by decide⟩, by decide, by decide⟩

/-- C4 amended: two records are the same entity under the deduplication
equality `Designer.__eq__` iff their lowercased names match and their
lowercased secondary identifiers match, where the secondary identifier is the
website if present, else the email if present, else the EMPTY STRING (not the
name; the name fallback exists only inside `__hash__`). -/
theorem designerEq_characterization (a b : Designer) :
    designerEq a b = true ↔
      (pyLower a.name = pyLower b.name ∧
        pyLower (pyOr a.website (pyOr a.email "")) = pyLower (pyOr b.website (pyOr b.email ""))) := by
  simp [designerEq, secondaryEq]

/-- Embeds the round trip through the CSV file: `Designer.to_dict` writes each
optional field as `field or ''`, and `CSVExporter._load_existing` reads it back
as `row.get(k) or None` and rebuilds a `Designer` (re-running
`__post_init__` normalization; `social_media` is not reloaded). -/
def reloadDesigner (d : Designer) : Designer :=
  mkDesigner d.name d.source_url (noneIfEmpty d.email) (noneIfEmpty d.phone)
    (noneIfEmpty d.website) (noneIfEmpty d.address) (noneIfEmpty d.city)
    (noneIfEmpty d.state) (noneIfEmpty d.zip_code) (noneIfEmpty d.specialty)

/-- State of the output CSV file: whether it exists on disk and its data rows
(the header row is not counted). -/
structure FileState where
  present : Bool
  rows : List Designer
deriving DecidableEq, Repr

/-- Embeds `CSVExporter.export` (src/utils/exporter.py lines 30-68). An empty
input returns early. Otherwise the batch is deduplicated when requested; in
append mode with an existing file the persisted rows are loaded, the union is
deduplicated, and the file is opened in mode `a` (when something was loaded)
or `w`; mode `a` appends every surviving row after the rows already on disk,
mode `w` replaces the file contents. -/
def exportCsv (st : FileState) (designers : List Designer) (append dedup : Bool) : FileState :=
  if designers.isEmpty then st
  else
    let ds1 := if dedup then deduplicate designers else designers
    let existing := if append && st.present then st.rows.map reloadDesigner else []
    let ds2 := if append && st.present then deduplicate (existing ++ ds1) else ds1
    if append && !existing.isEmpty then ⟨true, st.rows ++ ds2⟩
    else ⟨true, ds2⟩

/-- A sample record as produced by `DirectoryScraper._parse_listing`. -/
def sampleJane : Designer :=
  mkDesigner "Jane Doe" "https://site/page1" none none (some "http://janedoe-design.com")
    none none none none none

/-- C1: exporting the same one-record batch twice — first into a fresh file,
then in append mode with deduplication enabled — leaves TWO identical data
rows in the file, not one: `export` deduplicates the merged list but then
appends all of it after the rows already on disk, so every previously
persisted record is written again. This contradicts the deduplication purpose
of the merge (`# Merge and deduplicate`) and the spec's append idempotence. -/
theorem exportCsv_append_duplicates_rows :
    (exportCsv ⟨false, []⟩ [sampleJane] false true).rows = [sampleJane] ∧
      (exportCsv (exportCsv ⟨false, []⟩ [sampleJane] false true) [sampleJane] true true).rows =
        [sampleJane, reloadDesigner sampleJane] ∧
      designerEq sampleJane (reloadDesigner sampleJane) = true ∧
      (exportCsv (exportCsv ⟨false, []⟩ [sampleJane] false true) [sampleJane] true true).rows.length = 2 := by
  refine ⟨by decide, by decide, by decide, by decide⟩

/-- Python substring containment `pat in hay` on character lists. -/
def containsSub (pat : List Char) : List Char → Bool
  | [] => pat.isEmpty
  | c :: rest => pat.isPrefixOf (c :: rest) || containsSub pat rest

/-- The three block-page phrases of
`DirectoryScraper._is_block_page_result` (src/scrapers/directory_scraper.py
lines 490-501). -/
def blockPhrases : List String :=
  ["you are unable to access", "why have i been blocked", "what can i do to resolve"]

/-- Embeds `DirectoryScraper._is_block_page_result`: exactly 3 records, and at
least 2 of the 3 known phrases occur in some record's stripped lowercased
name. -/
def isBlockPageResult (designers : List Designer) : Bool :=
  if designers.length ≠ 3 then false
  else
    let names := designers.map (fun d => pyLower (pyStrip d.name))
    decide (2 ≤ (blockPhrases.countP (fun ph => names.any (fun n => containsSub ph.data n.data))))

/-- Truthiness of `max_results and len(designers) >= max_results` in
`DirectoryScraper.scrape`: `None` and `0` are falsy. -/
def capHit (maxR : Option Nat) (n : Nat) : Bool :=
  match maxR with
  | none => false
  | some m => decide (m ≠ 0) && decide (m ≤ n)

/-- Embeds the paginated branch of `DirectoryScraper.scrape`
(src/scrapers/directory_scraper.py lines 84-132), abstracting page fetching
and per-page extraction into the oracle `fetch : page number → records or
fetch failure`. A failed fetch skips the page; a fetched page ≥ 2 matching the
block heuristic contributes no records; reaching the result cap truncates and
stops. -/
def runPages (fetch : Nat → Option (List Designer)) (maxR : Option Nat) :
    List Nat → List Designer → List Designer
  | [], acc => acc
  | p :: ps, acc =>
    match fetch p with
    | none => runPages fetch maxR ps acc
    | some pds0 =>
      let pds := if decide (p > 1) && isBlockPageResult pds0 then [] else pds0
      let acc2 := acc ++ pds
      if capHit maxR acc2.length then acc2.take (maxR.getD 0)
      else runPages fetch maxR ps acc2

/-- The paginated scrape over pages `start_page .. end_page`. -/
def paginatedScrape (fetch : Nat → Option (List Designer)) (startP endP : Nat)
    (maxR : Option Nat) : List Designer :=
  runPages fetch maxR (List.range' startP (endP + 1 - startP)) []

/-- Spec-side predicate from the claim's words for C5: exactly 3 entries and
at least 2 of the NAMES contain some known block-page phrase. -/
def specBlockedByNames (designers : List Designer) : Bool :=
  designers.length == 3 &&
    decide (2 ≤ designers.countP
      (fun d => blockPhrases.any (fun ph => containsSub ph.data (pyLower (pyStrip d.name)).data)))

/-- Record named by a single block phrase. -/
def cexBlockedA : Designer :=
  mkDesigner "why have i been blocked" "https://site/2" none none none none none none none none

/-- Second record named by the same block phrase. -/
def cexBlockedB : Designer :=
  mkDesigner "Why have I been blocked" "https://site/2" none none (some "b") none none none none none

/-- An ordinary third record. -/
def cexOrdinary : Designer :=
  mkDesigner "Acme Studio" "https://site/2" none none none none none none none none

/-- Fetch oracle for the C5 counterexample: page 1 is empty, page 2 returns
two records whose names contain the same single block phrase plus one
ordinary record. -/
def cexBlockFetch (p : Nat) : Option (List Designer) :=
  if p = 2 then some [cexBlockedA, cexBlockedB, cexOrdinary] else some []

/-- C5 counterexample: page 2 has exactly 3 entries and 2 of their names
contain known block-page phrases, so per the claim its records must be
discarded; the code counts distinct PHRASES present (here only 1 of 3), keeps
the page, and returns its 3 records. -/
theorem blockHeuristic_counts_phrases_not_names :
    specBlockedByNames [cexBlockedA, cexBlockedB, cexOrdinary] = true ∧
      isBlockPageResult [cexBlockedA, cexBlockedB, cexOrdinary] = false ∧
      paginatedScrape cexBlockFetch 1 2 none = [cexBlockedA, cexBlockedB, cexOrdinary] := by
  refine ⟨by decide, by decide, by decide⟩

theorem isBlockPageResult_iff (ds : List Designer) :
    isBlockPageResult ds = true ↔
      (ds.length = 3 ∧
        2 ≤ blockPhrases.countP
          (fun ph => ds.any (fun d => containsSub ph.data (pyLower (pyStrip d.name)).data))) := by
  have hfun : (fun ph : String =>
        (List.map (fun d => pyLower (pyStrip d.name)) ds).any fun n => containsSub ph.data n.data) =
      (fun ph : String => ds.any fun d => containsSub ph.data (pyLower (pyStrip d.name)).data) := by
    funext ph
    induction ds with
    | nil => rfl
    | cons d ds ih => simp [ih]
  by_cases h3 : ds.length = 3
  · simp [isBlockPageResult, h3, hfun]
  · simp [isBlockPageResult, h3]

theorem runPages_none_eq (fetch : Nat → Option (List Designer)) :
    ∀ (ps : List Nat) (acc : List Designer),
      runPages fetch none ps acc =
        acc ++ ps.flatMap (fun p =>
          match fetch p with
          | none => []
          | some ds => if decide (p > 1) && isBlockPageResult ds then [] else ds) := by
  intro ps
  induction ps with
  | nil => intro acc; simp [runPages]
  | cons p ps ih =>
    intro acc
    cases hf : fetch p with
    | none =>
      simp only [runPages, hf, ih, List.flatMap_cons]
      simp
    | some ds =>
      simp only [runPages, hf, capHit, Bool.false_eq_true, if_false, ih, List.flatMap_cons,
        List.append_assoc]

/-- C5 amended: in a paginated list scrape without a result cap, every fetched
page with index > 1 whose extracted record set has exactly 3 entries such that
at least 2 of the 3 known block-page PHRASES occur in some record's name
contributes zero records, and every other fetched page (including page 1)
keeps its records in order. -/
theorem paginatedScrape_block_filtering (fetch : Nat → Option (List Designer))
    (startP endP : Nat) :
    paginatedScrape fetch startP endP none =
      (List.range' startP (endP + 1 - startP)).flatMap (fun p =>
        match fetch p with
        | none => []
        | some ds =>
          if p > 1 ∧ ds.length = 3 ∧
              2 ≤ blockPhrases.countP
                (fun ph => ds.any (fun d => containsSub ph.data (pyLower (pyStrip d.name)).data))
            then [] else ds) := by
  rw [paginatedScrape, runPages_none_eq, List.nil_append]
  refine congrArg _ (funext fun p => ?_)
  cases fetch p with
  | none => rfl
  | some ds =>
    refine if_congr ?_ rfl rfl
    rw [Bool.and_eq_true, decide_eq_true_eq, isBlockPageResult_iff]

/-- C7 counterexample: the empty string has a digit count other than 10 and
11, yet `Designer._normalize_phone` returns `None` for it (Python `if not
phone`), not the trimmed input unchanged. -/
theorem normalizePhone_empty_not_passthrough :
    normalizePhone "" = none ∧
      ("" : String).data.filter Char.isDigit = [] ∧
      normalizePhone "" ≠ some (pyStrip "") := by
  refine ⟨by decide, by decide, by decide⟩

/-- C7 amended: a phone string with exactly 10 digits is formatted
`(XXX) XXX-XXXX` from those digits; one with exactly 11 digits starting with
`1` is formatted `+1 (XXX) XXX-XXXX`; for any other digit count a NONEMPTY
input is returned with surrounding whitespace trimmed and otherwise unchanged,
while the empty string yields `None`. -/
theorem normalizePhone_characterization (s : String) :
    (∀ a b c d e f g h i j : Char,
        s.data.filter Char.isDigit = [a, b, c, d, e, f, g, h, i, j] →
        normalizePhone s =
          some (String.mk ['(', a, b, c, ')', ' ', d, e, f, '-', g, h, i, j])) ∧
    (∀ a b c d e f g h i j : Char,
        s.data.filter Char.isDigit = '1' :: [a, b, c, d, e, f, g, h, i, j] →
        normalizePhone s =
          some (String.mk ['+', '1', ' ', '(', a, b, c, ')', ' ', d, e, f, '-', g, h, i, j])) ∧
    ((s.data.filter Char.isDigit).length ≠ 10 →
      ¬ ((s.data.filter Char.isDigit).length = 11 ∧
          (s.data.filter Char.isDigit).head? = some '1') →
      normalizePhone s = if s = "" then none else some (pyStrip s)) := by
  refine ⟨?_, ?_, ?_⟩
  · intro a b c d e f g h i j hd
    have hs : s ≠ "" := by
      intro h0
      subst h0
      have he : List.filter Char.isDigit ("" : String).data = [] := by decide
      rw [he] at hd
      simp at hd
    simp only [normalizePhone]
    rw [if_neg hs, hd]
    simp
  · intro a b c d e f g h i j hd
    have hs : s ≠ "" := by
      intro h0
      subst h0
      have he : List.filter Char.isDigit ("" : String).data = [] := by decide
      rw [he] at hd
      simp at hd
    simp only [normalizePhone]
    rw [if_neg hs, hd]
    simp
  · intro h10 h11
    by_cases hs : s = ""
    · subst hs
      decide
    · simp only [normalizePhone]
      rw [if_neg hs, if_neg h10, if_neg h11, if_neg hs]

/-- Witness for `normalizePhone_characterization` on a concrete 10-digit
phone string with punctuation. -/
theorem normalizePhone_characterization_witness :
    normalizePhone "212-555-0100" =
      some (String.mk ['(', '2', '1', '2', ')', ' ', '5', '5', '5', '-', '0', '1', '0', '0']) :=
  (normalizePhone_characterization "212-555-0100").1 '2' '1' '2' '5' '5' '5' '0' '1' '0' '0'
    (by decide)

/-- Observable events of a URL-list scrape: an inter-page courtesy wait of a
given number of seconds, or the fetch of one URL. -/
inductive ScrapeEvent where
  | wait : Nat → ScrapeEvent
  | fetchUrl : String → ScrapeEvent
deriving DecidableEq, Repr

/-- Modelled from the spec: the `list_urls` branch of `DirectoryScraper.scrape`
is absent from src/ (src/main.py passes `single_url=` and src/config.py
defines `list_urls`, but the `scrape` in src/scrapers/directory_scraper.py
accepts neither), so this models the spec's ExplicitUrlList strategy: iterate
the URLs in order, wait `delay` seconds before every URL after the first,
fetch each URL once (oracle `fetch`), and stop when the list is exhausted or
the accumulated records reach a truthy result cap, truncating to the cap.
Returns the collected records and the event trace. -/
def runUrlList (fetch : String → List Designer) (delay : Nat) (maxR : Option Nat) :
    List String → List Designer → Bool → List Designer × List ScrapeEvent
  | [], acc, _ => (acc, [])
  | u :: us, acc, first =>
    let ev : List ScrapeEvent :=
      if first then [ScrapeEvent.fetchUrl u]
      else [ScrapeEvent.wait delay, ScrapeEvent.fetchUrl u]
    let acc2 := acc ++ fetch u
    match maxR with
    | some m =>
      if m ≠ 0 ∧ m ≤ acc2.length then (acc2.take m, ev)
      else
        let r := runUrlList fetch delay maxR us acc2 false
        (r.1, ev ++ r.2)
    | none =>
      let r := runUrlList fetch delay none us acc2 false
      (r.1, ev ++ r.2)

/-- Spec-side trace of an ExplicitUrlList run over the given URLs: each URL is
fetched exactly once, in order, with one `wait delay` between consecutive
fetches (`first` says whether the next fetch is the first of the run). -/
def specTraceGo (delay : Nat) : Bool → List String → List ScrapeEvent
  | _, [] => []
  | first, u :: us =>
    (if first then [ScrapeEvent.fetchUrl u]
     else [ScrapeEvent.wait delay, ScrapeEvent.fetchUrl u]) ++ specTraceGo delay false us

/-- Spec-side trace of a full ExplicitUrlList run. -/
def specTrace (delay : Nat) (urls : List String) : List ScrapeEvent :=
  specTraceGo delay true urls

/-- Number of URLs actually visited before a result cap of `m` is reached
(all of them if it never is). -/
def capLen (fetch : String → List Designer) : Nat → List String → Nat
  | _, [] => 0
  | m, u :: us => if m ≤ (fetch u).length then 1 else 1 + capLen fetch (m - (fetch u).length) us

theorem runUrlList_none_eq (fetch : String → List Designer) (delay : Nat) :
    ∀ (urls : List String) (acc : List Designer) (first : Bool),
      runUrlList fetch delay none urls acc first =
        (acc ++ urls.flatMap fetch, specTraceGo delay first urls) := by
  intro urls
  induction urls with
  | nil => intro acc first; simp [runUrlList, specTraceGo]
  | cons u us ih =>
    intro acc first
    simp only [runUrlList, ih, specTraceGo, List.flatMap_cons, List.append_assoc]

theorem runUrlList_cap_eq (fetch : String → List Designer) (delay : Nat) (m : Nat) :
    ∀ (urls : List String) (acc : List Designer) (first : Bool), acc.length < m →
      runUrlList fetch delay (some m) urls acc first =
        ((acc ++ urls.flatMap fetch).take m,
          specTraceGo delay first (urls.take (capLen fetch (m - acc.length) urls))) := by
  intro urls
  induction urls with
  | nil =>
    intro acc first h
    simp [runUrlList, capLen, specTraceGo, List.take_of_length_le (Nat.le_of_lt h)]
  | cons u us ih =>
    intro acc first h
    have hm0 : m ≠ 0 := Nat.pos_iff_ne_zero.mp (Nat.lt_of_le_of_lt (Nat.zero_le _) h)
    by_cases hcap : m ≤ (acc ++ fetch u).length
    · have hcond : m ≠ 0 ∧ m ≤ (acc ++ fetch u).length := ⟨hm0, hcap⟩
      have hlen : m - acc.length ≤ (fetch u).length := by
        rw [Nat.sub_le_iff_le_add]
        simpa [List.length_append, Nat.add_comm] using hcap
      rw [runUrlList]
      simp only [if_pos hcond]
      rw [capLen, if_pos hlen]
      have htake : (u :: us).take 1 = [u] := rfl
      rw [htake]
      refine Prod.ext ?_ ?_
      · show (acc ++ fetch u).take m = ((acc ++ (u :: us).flatMap fetch).take m)
        rw [List.flatMap_cons, ← List.append_assoc, List.take_append_of_le_length hcap]
      · show _ = specTraceGo delay first [u]
        simp [specTraceGo]
    · have hcond : ¬ (m ≠ 0 ∧ m ≤ (acc ++ fetch u).length) := fun hc => hcap hc.2
      have hlt : (acc ++ fetch u).length < m := Nat.lt_of_not_le hcap
      have hlen : ¬ (m - acc.length ≤ (fetch u).length) := by
        rw [Nat.sub_le_iff_le_add]
        intro hc
        exact hcap (by simpa [List.length_append, Nat.add_comm] using hc)
      rw [runUrlList]
      simp only [if_neg hcond]
      rw [ih (acc ++ fetch u) false hlt]
      rw [capLen, if_neg hlen]
      have hsub : m - acc.length - (fetch u).length = m - (acc ++ fetch u).length := by
        rw [Nat.sub_sub, List.length_append]
      rw [hsub]
      have htake : (u :: us).take (1 + capLen fetch (m - (acc ++ fetch u).length) us) =
          u :: us.take (capLen fetch (m - (acc ++ fetch u).length) us) := by
        rw [Nat.add_comm, List.take_succ_cons]
      rw [htake]
      refine Prod.ext ?_ ?_
      · show ((acc ++ fetch u) ++ us.flatMap fetch).take m = ((acc ++ (u :: us).flatMap fetch).take m)
        rw [List.flatMap_cons, List.append_assoc]
      · show _ = specTraceGo delay first (u :: us.take (capLen fetch (m - (acc ++ fetch u).length) us))
        simp [specTraceGo]

/-- C2: an ExplicitUrlList scrape fetches each listed URL exactly once, in
order, with the configured inter-page delay between consecutive fetches, and
terminates when the list is exhausted; with a (truthy) caller-supplied result
cap `m` it stops as soon as the accumulated records reach `m`, visiting only
the first `capLen` URLs and truncating the records to `m`. -/
theorem scrapeUrlList_once_in_order (fetch : String → List Designer) (delay : Nat)
    (urls : List String) :
    runUrlList fetch delay none urls [] true = (urls.flatMap fetch, specTrace delay urls) ∧
      ∀ m : Nat, m ≠ 0 →
        runUrlList fetch delay (some m) urls [] true =
          ((urls.flatMap fetch).take m, specTrace delay (urls.take (capLen fetch m urls))) := by
  constructor
  · rw [runUrlList_none_eq]
    simp [specTrace]
  · intro m hm
    rw [runUrlList_cap_eq fetch delay m urls [] true (Nat.pos_of_ne_zero hm)]
    simp [specTrace]

/-- Fetch oracle for the `scrapeUrlList_once_in_order` witness. -/
def witnessFetch (u : String) : List Designer :=
  if u = "p1" then [sampleJane] else []

/-- Witness for `scrapeUrlList_once_in_order`: with a cap of 1 the run stops
after the first URL. -/
theorem scrapeUrlList_once_in_order_witness :
    runUrlList witnessFetch 30 (some 1) ["p1", "p2"] [] true =
      ((["p1", "p2"].flatMap witnessFetch).take 1,
        specTrace 30 (["p1", "p2"].take (capLen witnessFetch 1 ["p1", "p2"]))) :=
  (scrapeUrlList_once_in_order witnessFetch 30 ["p1", "p2"]).2 1 (by decide)

/-- Per-site configuration as far as the run orchestration needs it: the
configured explicit URL list, the inter-page delay, and whether the site has
its own output file (src/config.py `WEBSITE_CONFIGS`). -/
structure RunSite where
  name : String
  listUrls : List String
  delay : Nat
  hasOutputFile : Bool

/-- Membership test `source_name in config.WEBSITE_CONFIGS` of
src/main.py. -/
def lookupSite (configs : List RunSite) (n : String) : Option RunSite :=
  configs.find? (fun c => c.name == n)

/-- Modelled from the spec: one site's `DirectoryScraper.scrape` over its
explicit URL list (the branch absent from src/scrapers/directory_scraper.py);
a supplied single-URL override replaces the configured `list_urls` for the
run, as stated by the spec and by src/main.py's
`single_url overrides list_urls when set`. -/
def scrapeSite (fetch : String → List Designer) (delay : Nat) (maxR : Option Nat)
    (listUrls : List String) (override : Option String) : List Designer :=
  match override with
  | some u => (runUrlList fetch delay maxR [u] [] true).1
  | none => (runUrlList fetch delay maxR listUrls [] true).1

/-- Embeds the per-site loop of `scrape_all_sources` (src/main.py lines
51-113): unknown site names are skipped; a site with its own output file sends
its records to that file (second component) instead of the combined list
(first component), unless it produced none. -/
def runSources (fetch : String → List Designer) (maxR : Option Nat) (configs : List RunSite)
    (override : Option String) : List String → List Designer × List (String × List Designer)
  | [] => ([], [])
  | n :: ns =>
    match lookupSite configs n with
    | none => runSources fetch maxR configs override ns
    | some cfg =>
      let ds := scrapeSite fetch cfg.delay maxR cfg.listUrls override
      let r := runSources fetch maxR configs override ns
      if cfg.hasOutputFile && !ds.isEmpty then (r.1, (n, ds) :: r.2)
      else (ds ++ r.1, r.2)

/-- Embeds `scrape_all_sources` (src/main.py lines 37-116): a truthy
`single_url` (nonempty after strip) requires exactly one selected source,
otherwise nothing is scraped; source selection defaults to all configured
sites when no list (or an empty one) was passed. The stripped override is
passed down to the site scrape. -/
def scrapeAllSources (fetch : String → List Designer) (maxR : Option Nat)
    (configs : List RunSite) (sources : Option (List String)) (singleUrl : Option String) :
    List Designer × List (String × List Designer) :=
  let defaulted : List String :=
    match sources with
    | some l => if l.isEmpty then configs.map (fun c => c.name) else l
    | none => configs.map (fun c => c.name)
  match singleUrl with
  | some v =>
    if pyStrip v ≠ "" then
      match sources with
      | some l =>
        if l.length = 1 then runSources fetch maxR configs (some (pyStrip v)) l
        else ([], [])
      | none => ([], [])
    else runSources fetch maxR configs none defaulted
  | none => runSources fetch maxR configs none defaulted

/-- C3: when a truthy single-URL override is supplied, selecting zero sites
(no list, or an empty one) or more than one site scrapes nothing and returns
no records at all; selecting exactly one configured site scrapes exactly the
override URL in place of the site's configured URL list, and (with no result
cap) the records produced for that site are precisely that one page's
records, routed to the site's own output when configured. -/
theorem scrapeAllSources_single_url (fetch : String → List Designer) (maxR : Option Nat)
    (configs : List RunSite) (sources : Option (List String)) (v : String)
    (hv : pyStrip v ≠ "") :
    ((sources = none ∨ ∃ l, sources = some l ∧ l.length ≠ 1) →
        scrapeAllSources fetch maxR configs sources (some v) = ([], [])) ∧
      (∀ s cfg, sources = some [s] → lookupSite configs s = some cfg →
        scrapeAllSources fetch maxR configs sources (some v) =
          (let ds := (runUrlList fetch cfg.delay maxR [pyStrip v] [] true).1
           if cfg.hasOutputFile && !ds.isEmpty then ([], [(s, ds)]) else (ds, []))) ∧
      (∀ s cfg, sources = some [s] → lookupSite configs s = some cfg →
        scrapeAllSources fetch none configs sources (some v) =
          (let ds := fetch (pyStrip v)
           if cfg.hasOutputFile && !ds.isEmpty then ([], [(s, ds)]) else (ds, []))) := by
  have hone : ∀ (maxR' : Option Nat) (s : String) (cfg : RunSite),
      sources = some [s] → lookupSite configs s = some cfg →
      scrapeAllSources fetch maxR' configs sources (some v) =
        (let ds := (runUrlList fetch cfg.delay maxR' [pyStrip v] [] true).1
         if cfg.hasOutputFile && !ds.isEmpty then ([], [(s, ds)]) else (ds, [])) := by
    intro maxR' s cfg hs hcfg
    subst hs
    simp only [scrapeAllSources, if_pos hv]
    rw [if_pos (show ([s] : List String).length = 1 from rfl)]
    simp only [runSources, hcfg, scrapeSite]
    set ds := (runUrlList fetch cfg.delay maxR' [pyStrip v] [] true).1 with hds
    by_cases hrt : cfg.hasOutputFile && !ds.isEmpty
    · simp [hrt]
    · simp [hrt]
  refine ⟨?_, fun s cfg hs hcfg => hone maxR s cfg hs hcfg, ?_⟩
  · intro hbad
    rcases hbad with h0 | ⟨l, hl, hlen⟩
    · subst h0
      simp [scrapeAllSources, if_pos hv]
    · subst hl
      simp [scrapeAllSources, if_pos hv, hlen]
  · intro s cfg hs hcfg
    have := hone none s cfg hs hcfg
    rw [this]
    have hfetch : (runUrlList fetch cfg.delay none [pyStrip v] [] true).1 = fetch (pyStrip v) := by
      rw [runUrlList_none_eq]
      simp
    rw [hfetch]

/-- Concrete site configuration for the `scrapeAllSources_single_url`
witness. -/
def witnessSite : RunSite := ⟨"rtf", ["u1", "u2"], 30, true⟩

/-- Witness for `scrapeAllSources_single_url`: one selected configured site
plus an override URL with surrounding whitespace. -/
theorem scrapeAllSources_single_url_witness :
    scrapeAllSources witnessFetch none [witnessSite] (some ["rtf"]) (some " p1 ") =
      (let ds := witnessFetch (pyStrip " p1 ")
       if witnessSite.hasOutputFile && !ds.isEmpty then ([], [("rtf", ds)]) else (ds, [])) :=
  (scrapeAllSources_single_url witnessFetch none [witnessSite] (some ["rtf"]) " p1 "
      (by decide)).2.2 "rtf" witnessSite rfl rfl

/-- Result of one `soup.select_one(selector)` call as the extractor sees it:
the lookup can raise (malformed selector), find nothing, or find an element
whose stripped text is returned. -/
inductive SelResult where
  | err : SelResult
  | missing : SelResult
  | found : String → SelResult
deriving DecidableEq, Repr

/-- Result of one `soup.select_one(selector)` call in the attribute
extractor: on a match, `element.get(attr, default)` reads the element's
attribute mapping. -/
inductive AttrLookup where
  | err : AttrLookup
  | noMatch : AttrLookup
  | matched : (String → Option String) → AttrLookup

/-- A listing sub-tree as the oracle the extractor queries (BeautifulSoup is
an external collaborator): its tag name, its own stripped text, and the two
selector-lookup oracles. -/
structure Elem where
  tagName : Option String
  ownText : String
  sel : String → SelResult
  attrQuery : String → AttrLookup

/-- A selector configuration value: a single selector string or a list of
candidate selectors (the two `isinstance` branches of
`BaseScraper._extract_text`). -/
inductive SelSpec where
  | str : String → SelSpec
  | list : List String → SelSpec

/-- Embeds the single-selector branch of `BaseScraper._extract_text`
(src/scrapers/base_scraper.py lines 107-119): a raised lookup gives the
default (`except: return default`); a missing match falls back to the
element's own text when the stripped lowercased selector equals the
element's truthy tag name. -/
def extractTextStr (e : Elem) (selector : String) (dflt : String) : String :=
  match e.sel selector with
  | SelResult.found t => t
  | SelResult.err => dflt
  | SelResult.missing =>
    match e.tagName with
    | some n => if n ≠ "" ∧ pyLower (pyStrip selector) = pyLower n then e.ownText else dflt
    | none => dflt

/-- Embeds the selector-list loop of `BaseScraper._extract_text` (lines
100-106): falsy selectors are skipped, each candidate is evaluated with
default `''`, the first non-empty result is returned, else the default. -/
def extractTextGo (e : Elem) (dflt : String) : List String → String
  | [] => dflt
  | s :: rest =>
    if s = "" then extractTextGo e dflt rest
    else
      let r := extractTextStr e s ""
      if r = "" then extractTextGo e dflt rest else r

/-- Embeds `BaseScraper._extract_text` including the falsy-argument guard
(`if not soup or not selector: return default`). -/
def extractText (soup : Option Elem) (selector : SelSpec) (dflt : String) : String :=
  match soup with
  | none => dflt
  | some e =>
    match selector with
    | SelSpec.str s => if s = "" then dflt else extractTextStr e s dflt
    | SelSpec.list ss => if ss.isEmpty then dflt else extractTextGo e dflt ss

/-- Embeds the single-selector branch of `BaseScraper._extract_attr` (lines
133-138): `element.get(attr, default) if element else default`, with raised
lookups giving the default. -/
def extractAttrStr (e : Elem) (selector attr : String) (dflt : String) : String :=
  match e.attrQuery selector with
  | AttrLookup.err => dflt
  | AttrLookup.noMatch => dflt
  | AttrLookup.matched get => (get attr).getD dflt

/-- Embeds the selector-list loop of `BaseScraper._extract_attr` (lines
126-132). -/
def extractAttrGo (e : Elem) (attr dflt : String) : List String → String
  | [] => dflt
  | s :: rest =>
    if s = "" then extractAttrGo e attr dflt rest
    else
      let r := extractAttrStr e s attr ""
      if r = "" then extractAttrGo e attr dflt rest else r

/-- Embeds `BaseScraper._extract_attr`. -/
def extractAttr (soup : Option Elem) (selector : SelSpec) (attr dflt : String) : String :=
  match soup with
  | none => dflt
  | some e =>
    match selector with
    | SelSpec.str s => if s = "" then dflt else extractAttrStr e s attr dflt
    | SelSpec.list ss => if ss.isEmpty then dflt else extractAttrGo e attr dflt ss

theorem extractTextGo_eq_find (e : Elem) :
    ∀ (ss : List String) (d : String),
      extractTextGo e d ss =
        (((ss.filter (fun s => !(s == ""))).map (fun s => extractTextStr e s "")).find?
          (fun r => !(r == ""))).getD d := by
  intro ss
  induction ss with
  | nil => intro d; rfl
  | cons s rest ih =>
    intro d
    by_cases hs : s = ""
    · simp [extractTextGo, hs, ih]
    · by_cases hr : extractTextStr e s "" = ""
      · simp [extractTextGo, hs, hr, List.filter_cons, List.find?, ih]
      · simp [extractTextGo, hs, hr, List.filter_cons, List.find?]

theorem extractAttrGo_eq_find (e : Elem) (attr : String) :
    ∀ (ss : List String) (d : String),
      extractAttrGo e attr d ss =
        (((ss.filter (fun s => !(s == ""))).map (fun s => extractAttrStr e s attr "")).find?
          (fun r => !(r == ""))).getD d := by
  intro ss
  induction ss with
  | nil => intro d; rfl
  | cons s rest ih =>
    intro d
    by_cases hs : s = ""
    · simp [extractAttrGo, hs, ih]
    · by_cases hr : extractAttrStr e s attr "" = ""
      · simp [extractAttrGo, hs, hr, List.filter_cons, List.find?, ih]
      · simp [extractAttrGo, hs, hr, List.filter_cons, List.find?]

/-- C9: over any listing element and ordered selector list, both field
extractors return the value of the first (truthy) selector whose evaluation
is non-empty and the empty default when none is; a selector whose lookup
raises is swallowed (its evaluation is the default `''`) and the next
selector in the list is tried. -/
theorem extract_first_nonempty (e : Elem) (ss : List String) (attr : String) :
    (extractText (some e) (SelSpec.list ss) "" =
        (((ss.filter (fun s => !(s == ""))).map (fun s => extractTextStr e s "")).find?
          (fun r => !(r == ""))).getD "") ∧
      (extractAttr (some e) (SelSpec.list ss) attr "" =
        (((ss.filter (fun s => !(s == ""))).map (fun s => extractAttrStr e s attr "")).find?
          (fun r => !(r == ""))).getD "") ∧
      (∀ s rest d, s ≠ "" → e.sel s = SelResult.err →
        extractText (some e) (SelSpec.list (s :: rest)) d =
          extractText (some e) (SelSpec.list rest) d) ∧
      (∀ s rest d, s ≠ "" → e.attrQuery s = AttrLookup.err →
        extractAttr (some e) (SelSpec.list (s :: rest)) attr d =
          extractAttr (some e) (SelSpec.list rest) attr d) := by
  refine ⟨?_, ?_, ?_, ?_⟩
  · cases ss with
    | nil => rfl
    | cons s rest => simp [extractText, extractTextGo_eq_find]
  · cases ss with
    | nil => rfl
    | cons s rest => simp [extractAttr, extractAttrGo_eq_find]
  · intro s rest d hs herr
    have hval : extractTextStr e s "" = "" := by
      simp [extractTextStr, herr]
    cases rest with
    | nil => simp [extractText, extractTextGo, hs, hval]
    | cons t ts => simp [extractText, extractTextGo, hs, hval]
  · intro s rest d hs herr
    have hval : extractAttrStr e s attr "" = "" := by
      simp [extractAttrStr, herr]
    cases rest with
    | nil => simp [extractAttr, extractAttrGo, hs, hval]
    | cons t ts => simp [extractAttr, extractAttrGo, hs, hval]

/-- Listing element for the `extract_first_nonempty` witness: one selector
raises, one matches. -/
def witnessElem : Elem :=
  ⟨some "h2", "Own Text",
   fun s => if s = "bad[" then SelResult.err
            else if s = "h3 a" then SelResult.found "Jane Doe" else SelResult.missing,
   fun s => if s = "bad[" then AttrLookup.err else AttrLookup.noMatch⟩

/-- Witness for `extract_first_nonempty`: the raising selector `bad[` is
skipped and the next selector is tried. -/
theorem extract_first_nonempty_witness :
    extractText (some witnessElem) (SelSpec.list ["bad[", "h3 a"]) "dflt" =
      extractText (some witnessElem) (SelSpec.list ["h3 a"]) "dflt" :=
  (extract_first_nonempty witnessElem ["bad[", "h3 a"] "href").2.2.1 "bad[" ["h3 a"] "dflt"
    (by decide) (by decide)

/-- Embeds `re.sub(r'^\d+\.?\s*', '', name)` of
`DirectoryScraper._parse_listing` (src/scrapers/directory_scraper.py line
541): a leading run of digits, an optional dot and following whitespace are
removed; with no leading digit the regex does not match and the input is
unchanged. -/
def stripOrdinalList (cs : List Char) : List Char :=
  if (cs.takeWhile Char.isDigit).isEmpty then cs
  else
    (match cs.drop (cs.takeWhile Char.isDigit).length with
     | '.' :: r => r
     | r => r).dropWhile Char.isWhitespace

/-- Leftmost end-anchored `re.sub(pat, '', s)`: delete the suffix starting at
the first position whose whole remaining text matches the end-anchored
pattern `p`. -/
def subToEnd (p : List Char → Bool) : List Char → List Char
  | [] => []
  | c :: cs => if p (c :: cs) then [] else c :: subToEnd p cs

/-- Consume a case-insensitive literal (given in lowercase). -/
def stripLitCI : List Char → List Char → Option (List Char)
  | [], cs => some cs
  | _ :: _, [] => none
  | l :: ls, c :: cs => if c.toLower = l then stripLitCI ls cs else none

/-- Matches `\s+in\s+[^|]*$` (the tail of the boilerplate-suffix regexes of
`_parse_listing`, case-insensitive). -/
def afterArchitect : List Char → Bool
  | [] => false
  | c :: rest =>
    c.isWhitespace &&
      (match rest.dropWhile Char.isWhitespace with
       | i :: n :: rest2 =>
         i.toLower == 'i' && n.toLower == 'n' &&
           (match rest2 with
            | c3 :: rest3 => c3.isWhitespace && rest3.all (fun x => !(x == '|'))
            | [] => false)
       | _ => false)

/-- Matches `\s*Architects?\s+in\s+[^|]*$` after the `|` (regex
alternation for the optional `s` is the boolean disjunction). -/
def archAfterPipe (cs : List Char) : Bool :=
  match stripLitCI "architect".data (cs.dropWhile Char.isWhitespace) with
  | none => false
  | some rest =>
    match rest with
    | s :: rest2 => (s.toLower == 's' && afterArchitect rest2) || afterArchitect rest
    | [] => false

/-- Matches `\s*\|\s*Architects?\s+in\s+[^|]*$`, the pattern of
`re.sub(r'\s*\|\s*Architects?\s+in\s+[^|]*$', '', name)` (line 543). -/
def archPipeCore (cs : List Char) : Bool :=
  match cs.dropWhile Char.isWhitespace with
  | '|' :: r => archAfterPipe r
  | _ => false

/-- Matches `:\s*\|\s*Architects?\s+in\s+[^|]*$` (line 544). -/
def archColonPred : List Char → Bool
  | ':' :: r => archPipeCore r
  | _ => false

/-- Matches `:\s*$`, the pattern of `re.sub(r':\s*$', '', name)` (line 545). -/
def trailColonPred : List Char → Bool
  | ':' :: r => r.all Char.isWhitespace
  | _ => false

/-- Word splitting of Python `str.split()` (no argument): maximal runs of
non-whitespace, accumulated in `cur` (reversed). -/
def pyWordsAux : List Char → List Char → List (List Char)
  | [], cur => if cur.isEmpty then [] else [cur.reverse]
  | c :: cs, cur =>
    if c.isWhitespace then
      if cur.isEmpty then pyWordsAux cs [] else cur.reverse :: pyWordsAux cs []
    else pyWordsAux cs (c :: cur)

/-- Python `name.split()`. -/
def pyWords (cs : List Char) : List (List Char) :=
  pyWordsAux cs []

/-- Python `' '.join(words)`. -/
def joinWords : List (List Char) → List Char
  | [] => []
  | [w] => w
  | w :: ws => w ++ ' ' :: joinWords ws

/-- Python `' '.join(name.split())` (line 547): collapse whitespace runs to
single spaces and drop outer whitespace. -/
def collapseList (cs : List Char) : List Char :=
  joinWords (pyWords cs)

/-- Embeds the full name-cleanup pipeline of `_parse_listing` (lines
537-547): strip the leading ordinal, strip, remove the two
`| Architects in ...` boilerplate suffixes and a trailing colon, collapse
whitespace. -/
def cleanNameList (cs : List Char) : List Char :=
  collapseList (subToEnd trailColonPred (subToEnd archColonPred
    (subToEnd archPipeCore (trimList (stripOrdinalList cs)))))

/-- The cleaned name as a string. -/
def cleanName (s : String) : String :=
  String.mk (cleanNameList s.data)

/-- Spec-side normalization from the claim's words: the input with the
ordinal prefix removed and whitespace collapsed, and nothing else changed. -/
def specOrdinalNormalized (s : String) : String :=
  String.mk (collapseList (stripOrdinalList s.data))

/-- The input begins with a leading ordinal marker: one or more digits
followed by a dot. -/
def hasLeadingOrdinal (cs : List Char) : Bool :=
  !(cs.takeWhile Char.isDigit).isEmpty &&
    (match cs.drop (cs.takeWhile Char.isDigit).length with
     | '.' :: _ => true
     | _ => false)

/-- A lowercase literal prefix followed by one whitespace character
(regexes such as `^search\s` of the denylist in `_parse_listing`). -/
def litThenWS (lit : List Char) (cs : List Char) : Bool :=
  lit.isPrefixOf cs &&
    (match cs.drop lit.length with
     | c :: _ => c.isWhitespace
     | [] => false)

/-- The denylist of `_parse_listing` (lines 550-564) on the lowercased
cleaned name. -/
def nameDenied (low : List Char) : Bool :=
  "no matches".data.isPrefixOf low || "no results".data.isPrefixOf low ||
  "try again".data.isPrefixOf low || litThenWS "search".data low ||
  litThenWS "filter".data low || "loading".data.isPrefixOf low ||
  litThenWS "error".data low ||
  low == "architecture firms in new york".data ||
  "new york architecture is unique".data.isPrefixOf low

/-- A cleaned name survives all rejection checks of `_parse_listing`: not in
the denylist, at most 400 characters, at least 2 characters. -/
def nameAccepted (cleaned : List Char) : Bool :=
  !(nameDenied (cleaned.map Char.toLower)) &&
    decide (cleaned.length ≤ 400) && decide (2 ≤ cleaned.length)

theorem mem_stripOrdinalList {x : Char} {cs : List Char} (h : x ∈ stripOrdinalList cs) :
    x ∈ cs := by
  unfold stripOrdinalList at h
  split at h
  · exact h
  · have h1 : x ∈ (match cs.drop (cs.takeWhile Char.isDigit).length with
        | '.' :: r => r
        | r => r) := (List.dropWhile_sublist _).subset h
    have h2 : x ∈ cs.drop (cs.takeWhile Char.isDigit).length := by
      revert h1
      split
      · next r heq => intro h1; rw [heq]; exact List.mem_cons_of_mem _ h1
      · exact fun h1 => h1
    exact (List.drop_sublist _ _).subset h2

theorem mem_trimList {x : Char} {cs : List Char} (h : x ∈ trimList cs) : x ∈ cs := by
  unfold trimList at h
  rw [List.mem_reverse] at h
  have h1 := (List.dropWhile_sublist _).subset h
  rw [List.mem_reverse] at h1
  exact (List.dropWhile_sublist _).subset h1

theorem archPipeCore_pipe {cs : List Char} (h : archPipeCore cs = true) : '|' ∈ cs := by
  unfold archPipeCore at h
  split at h
  · next r heq =>
    have hm : '|' ∈ cs.dropWhile Char.isWhitespace := by
      rw [heq]
      exact List.mem_cons_self _ _
    exact (List.dropWhile_sublist _).subset hm
  · exact absurd h (by simp)

theorem archColonPred_pipe {cs : List Char} (h : archColonPred cs = true) : '|' ∈ cs := by
  unfold archColonPred at h
  split at h
  · next r => exact List.mem_cons_of_mem _ (archPipeCore_pipe h)
  · exact absurd h (by simp)

theorem subToEnd_eq_self_of_no_pipe (p : List Char → Bool)
    (hp : ∀ ds, p ds = true → '|' ∈ ds) :
    ∀ cs : List Char, (∀ x ∈ cs, x ≠ '|') → subToEnd p cs = cs := by
  intro cs
  induction cs with
  | nil => intro _; rfl
  | cons c cs ih =>
    intro hno
    have hfalse : p (c :: cs) = false := by
      cases hpc : p (c :: cs)
      · rfl
      · exact (hno '|' (hp _ hpc) rfl).elim
    rw [subToEnd, hfalse]
    simp only [Bool.false_eq_true, if_false]
    exact congrArg (List.cons c) (ih (fun x hx => hno x (List.mem_cons_of_mem _ hx)))

theorem pyWordsAux_all_ws :
    ∀ (w cur : List Char), (∀ c ∈ w, c.isWhitespace) → pyWordsAux w cur = pyWordsAux [] cur := by
  intro w
  induction w with
  | nil => intro cur _; rfl
  | cons c w ih =>
    intro cur hws
    have hc : c.isWhitespace = true := hws c (List.mem_cons_self _ _)
    have hw : ∀ x ∈ w, x.isWhitespace = true := fun x hx => hws x (List.mem_cons_of_mem _ hx)
    by_cases hcur : cur.isEmpty <;> simp [pyWordsAux, hc, hcur, ih [] hw]

theorem pyWordsAux_append_ws (w : List Char) (hws : ∀ c ∈ w, c.isWhitespace) :
    ∀ (cs cur : List Char), pyWordsAux (cs ++ w) cur = pyWordsAux cs cur := by
  intro cs
  induction cs with
  | nil =>
    intro cur
    rw [List.nil_append]
    exact pyWordsAux_all_ws w cur hws
  | cons c cs ih =>
    intro cur
    by_cases hc : c.isWhitespace <;> by_cases hcur : cur.isEmpty <;>
      simp [pyWordsAux, hc, hcur, ih]

theorem pyWords_dropWhile (cs : List Char) :
    pyWords (cs.dropWhile Char.isWhitespace) = pyWords cs := by
  induction cs with
  | nil => rfl
  | cons c cs ih =>
    by_cases hc : c.isWhitespace
    · rw [List.dropWhile_cons]
      simp only [hc, if_true]
      rw [ih]
      show pyWords cs = pyWordsAux (c :: cs) []
      simp [pyWords, pyWordsAux, hc]
    · rw [List.dropWhile_cons]
      simp [hc]

theorem pyWords_trimList (cs : List Char) : pyWords (trimList cs) = pyWords cs := by
  unfold trimList
  set l := cs.dropWhile Char.isWhitespace with hl
  have hsplit : (l.reverse.dropWhile Char.isWhitespace).reverse ++
      (l.reverse.takeWhile Char.isWhitespace).reverse = l := by
    rw [← List.reverse_append, List.takeWhile_append_dropWhile, List.reverse_reverse]
  have hws : ∀ c ∈ (l.reverse.takeWhile Char.isWhitespace).reverse, c.isWhitespace := by
    intro c hc
    rw [List.mem_reverse] at hc
    exact List.mem_takeWhile_imp hc
  calc pyWords (l.reverse.dropWhile Char.isWhitespace).reverse
      = pyWords ((l.reverse.dropWhile Char.isWhitespace).reverse ++
          (l.reverse.takeWhile Char.isWhitespace).reverse) :=
        (pyWordsAux_append_ws _ hws _ []).symm
    _ = pyWords l := by rw [hsplit]
    _ = pyWords cs := pyWords_dropWhile cs

theorem collapseList_trimList (cs : List Char) :
    collapseList (trimList cs) = collapseList cs :=
  congrArg joinWords (pyWords_trimList cs)

/-- C8 counterexample: `"3. Acme:"` begins with a leading ordinal marker and
passes the rejection checks, but `_parse_listing` also strips the trailing
colon, so the normalized name is NOT the input with only the ordinal prefix
removed and whitespace collapsed. -/
theorem cleanName_not_only_ordinal :
    hasLeadingOrdinal ("3. Acme:").data = true ∧
      nameAccepted (cleanNameList ("3. Acme:").data) = true ∧
      cleanName "3. Acme:" = "Acme" ∧
      specOrdinalNormalized "3. Acme:" = "Acme:" ∧
      cleanName "3. Acme:" ≠ specOrdinalNormalized "3. Acme:" := by
  refine ⟨by decide, by decide, by decide, by decide, by decide⟩

/-- C8 amended: for a name beginning with a leading ordinal marker, if the
name contains no `|` character (so the two `| Architects in ...` boilerplate
strips cannot fire) and the trailing-colon strip does not fire, the
normalized name equals the input with the ordinal prefix removed and
whitespace collapsed, and nothing else changed (stated under the claim's
assumption that the cleaned name passes the length and denylist checks). -/
theorem cleanName_ordinal_only (s : String)
    (h1 : hasLeadingOrdinal s.data = true)
    (h2 : ∀ x ∈ s.data, x ≠ '|')
    (h3 : subToEnd trailColonPred (trimList (stripOrdinalList s.data)) =
      trimList (stripOrdinalList s.data))
    (h4 : nameAccepted (cleanNameList s.data) = true) :
    cleanName s = specOrdinalNormalized s := by
  have hnp : ∀ x ∈ trimList (stripOrdinalList s.data), x ≠ '|' :=
    fun x hx => h2 x (mem_stripOrdinalList (mem_trimList hx))
  unfold cleanName cleanNameList
  rw [subToEnd_eq_self_of_no_pipe archPipeCore (fun ds h => archPipeCore_pipe h) _ hnp,
    subToEnd_eq_self_of_no_pipe archColonPred (fun ds h => archColonPred_pipe h) _ hnp,
    h3, collapseList_trimList]
  rfl

/-- Witness for `cleanName_ordinal_only` on a concrete ordinal-prefixed name
with ragged whitespace. -/
theorem cleanName_ordinal_only_witness :
    cleanName "3.  Acme   Studio" = specOrdinalNormalized "3.  Acme   Studio" :=
  cleanName_ordinal_only "3.  Acme   Studio" (by decide)
    (by decide) (by decide) (by decide)
